import Mathlib

set_option autoImplicit false

/-!
Shallow embedding of the coinbot-alpha paper-trading engine
(`src/coinbot_alpha`).  Python `Decimal` values are modelled by exact
rationals (`ℚ`): every operation the ledger and risk engine perform on
them (`+`, `-`, `*`, `/`, `max`, comparisons) is exact at the precision
the program uses.  Python `dict`s are modelled by insertion-ordered
association lists with the same access primitives (`get` with default,
`get` returning `None`, item assignment, `pop`, `update`).
-/

namespace CoinbotAlpha

/-! ### Python dict model -/

/-- Lookup of a key, `d.get(k)`: first entry with the key, if any. -/
def dget? {β : Type} : List (String × β) → String → Option β
  | [], _ => none
  | (k, v) :: rest, key => if k = key then some v else dget? rest key

/-- Lookup with default, `d.get(k, default)`. -/
def dgetD {β : Type} (m : List (String × β)) (key : String) (default : β) : β :=
  (dget? m key).getD default

/-- Item assignment `d[k] = v`: replace the entry in place, else append. -/
def dinsert {β : Type} : List (String × β) → String → β → List (String × β)
  | [], key, v => [(key, v)]
  | (k, w) :: rest, key, v =>
    if k = key then (key, v) :: rest else (k, w) :: dinsert rest key v

/-- Removal `d.pop(k, None)`. -/
def dpop {β : Type} : List (String × β) → String → List (String × β)
  | [], _ => []
  | (k, w) :: rest, key => if k = key then rest else (k, w) :: dpop rest key

/-- Bulk merge `d.update(other)`, applying the entries of `other` in order. -/
def dupdate {β : Type} (m other : List (String × β)) : List (String × β) :=
  other.foldl (fun acc kv => dinsert acc kv.1 kv.2) m

/-! ### Schemas (`schemas.py`) -/

/-- Order side enum (`Side`). -/
inductive Side
  | BUY
  | SELL
deriving DecidableEq, Repr

/-- String value of a side, `Side.value`. -/
def Side.value : Side → String
  | .BUY => "BUY"
  | .SELL => "SELL"

/-- Order intent record (`OrderIntent`); the creation timestamp is not
consumed by any embedded component and is omitted. -/
structure OrderIntent where
  intent_id : String
  symbol : String
  side : Side
  notional_usd : ℚ
  slippage_bps : Int
deriving DecidableEq, Repr

/-- Risk decision record (`RiskDecision`). -/
structure RiskDecision where
  allowed : Bool
  reason : String
deriving DecidableEq, Repr

/-! ### Risk engine (`risk/limits.py`) -/

/-- Configured notional caps (`RiskLimits`). -/
structure RiskLimits where
  max_notional_per_symbol_usd : ℚ
  max_daily_notional_usd : ℚ
deriving DecidableEq, Repr

/-- Mutable state of `RiskEngine`: running daily and per-symbol notional
totals. -/
structure RiskState where
  daily_notional : ℚ
  symbol_notional : List (String × ℚ)
deriving DecidableEq, Repr

/-- Initial risk state (`RiskEngine.__init__`). -/
def RiskState.init : RiskState := ⟨0, []⟩

/-- Embedding of `RiskEngine.check_and_apply`: reject past the per-symbol
cap, then past the daily cap; commit both totals only when allowed. -/
def RiskEngine.check_and_apply (limits : RiskLimits) (st : RiskState)
    (intent : OrderIntent) : RiskDecision × RiskState :=
  let sym := intent.symbol
  let sym_current := dgetD st.symbol_notional sym 0
  let sym_next := sym_current + intent.notional_usd
  if sym_next > limits.max_notional_per_symbol_usd then
    (⟨false, "symbol_cap_exceeded"⟩, st)
  else
    let day_next := st.daily_notional + intent.notional_usd
    if day_next > limits.max_daily_notional_usd then
      (⟨false, "daily_cap_exceeded"⟩, st)
    else
      (⟨true, ""⟩,
        { daily_notional := day_next
          symbol_notional := dinsert st.symbol_notional sym sym_next })

/-- Folding `check_and_apply` over a sequence of intents, keeping only the
evolving state. -/
def RiskEngine.runIntents (limits : RiskLimits) (st : RiskState) :
    List OrderIntent → RiskState
  | [] => st
  | intent :: rest =>
    RiskEngine.runIntents limits (RiskEngine.check_and_apply limits st intent).2 rest

/-! ### Kill switch (`risk/kill_switch.py`) -/

/-- Kill-switch state (`KillSwitchState`). -/
structure KillSwitchState where
  active : Bool
  reason : String
deriving DecidableEq, Repr

/-- Initial kill-switch state (`KillSwitch.__init__`). -/
def KillSwitchState.init : KillSwitchState := ⟨false, ""⟩

/-- Embedding of `KillSwitch.activate`. -/
def KillSwitch.activate (_st : KillSwitchState) (reason : String) : KillSwitchState :=
  ⟨true, reason⟩

/-- Embedding of `KillSwitch.deactivate`. -/
def KillSwitch.deactivate (_st : KillSwitchState) : KillSwitchState :=
  ⟨false, ""⟩

/-- Embedding of `KillSwitch.check`: a snapshot copy of the state. -/
def KillSwitch.check (st : KillSwitchState) : KillSwitchState :=
  ⟨st.active, st.reason⟩

/-- Operations callable on the kill switch, for trace reasoning. -/
inductive KSEvent
  | activate (reason : String)
  | deactivate
  | check
deriving DecidableEq, Repr

/-- State transition of one kill-switch call; `check` does not mutate. -/
def KSEvent.apply (st : KillSwitchState) : KSEvent → KillSwitchState
  | .activate r => KillSwitch.activate st r
  | .deactivate => KillSwitch.deactivate st
  | .check => st

/-- Run a sequence of kill-switch calls. -/
def KSEvent.run (st : KillSwitchState) : List KSEvent → KillSwitchState
  | [] => st
  | e :: es => KSEvent.run (e.apply st) es

/-! ### Paper executor (`execution/paper.py`) -/

/-- Fill record (`PaperFill`). -/
structure PaperFill where
  intent_id : String
  symbol : String
  side : String
  notional_usd : ℚ
  fill_price : ℚ
  qty : ℚ
  position_qty_after : ℚ
  avg_entry_price_after : ℚ
  realized_pnl_delta : ℚ
  realized_pnl_total : ℚ
  status : String
deriving DecidableEq, Repr

/-- Ledger snapshot record (`PaperLedgerSnapshot`). -/
structure PaperLedgerSnapshot where
  realized_pnl_total : ℚ
  unrealized_pnl_total : ℚ
  open_positions : Nat
deriving DecidableEq, Repr

/-- Mutable state of `PaperExecutor`: per-symbol signed quantity, average
entry price and last mark, plus the running realized-PnL total. -/
structure PaperState where
  position_qty : List (String × ℚ)
  avg_entry_price : List (String × ℚ)
  marks : List (String × ℚ)
  realized_pnl_total : ℚ
deriving DecidableEq, Repr

/-- Initial ledger state (`PaperExecutor.__init__`). -/
def PaperState.init : PaperState := ⟨[], [], [], 0⟩

/-- Embedding of the module-level helper `_weighted_avg`. -/
def weighted_avg (current_qty current_avg new_qty new_price : ℚ) : ℚ :=
  let total_abs := |current_qty| + |new_qty|
  if total_abs = 0 then 0
  else ((|current_qty| * current_avg) + (|new_qty| * new_price)) / total_abs

/-- The fill-price floor `Decimal("0.0001")` used by `submit` and
`flatten_symbol`. -/
def priceFloor : ℚ := 1 / 10000

/-- Embedding of `PaperExecutor.submit`. -/
def PaperExecutor.submit (s : PaperState) (intent : OrderIntent)
    (fill_price : ℚ) : PaperFill × PaperState :=
  let price := max fill_price priceFloor
  let qty := intent.notional_usd / price
  let signed_qty := if intent.side.value = "BUY" then qty else -qty
  let current_qty := dgetD s.position_qty intent.symbol 0
  let current_avg := dgetD s.avg_entry_price intent.symbol 0
  let step :=
    if current_qty = 0 ∨ (current_qty > 0 ∧ signed_qty > 0) ∨
        (current_qty < 0 ∧ signed_qty < 0) then
      (current_qty + signed_qty, weighted_avg current_qty current_avg signed_qty price,
        (0 : ℚ))
    else
      let closing_qty := min |current_qty| |signed_qty|
      let realized_delta :=
        if current_qty > 0 then (price - current_avg) * closing_qty
        else (current_avg - price) * closing_qty
      if |current_qty| > |signed_qty| then
        (current_qty + signed_qty, current_avg, realized_delta)
      else if |current_qty| = |signed_qty| then
        (0, 0, realized_delta)
      else
        (current_qty + signed_qty, price, realized_delta)
  let next_qty := step.1
  let next_avg := step.2.1
  let realized_delta := step.2.2
  let total := s.realized_pnl_total + realized_delta
  (⟨intent.intent_id, intent.symbol, intent.side.value, intent.notional_usd,
      price, qty, next_qty, next_avg, realized_delta, total, "filled"⟩,
    { position_qty := dinsert s.position_qty intent.symbol next_qty
      avg_entry_price := dinsert s.avg_entry_price intent.symbol next_avg
      marks := dinsert s.marks intent.symbol price
      realized_pnl_total := total })

/-- One step of the snapshot loop body over a `(symbol, qty)` item:
accumulates `(unrealized_total, open_positions)`. -/
def snapshotStep (marks avg_entry_price : List (String × ℚ))
    (acc : ℚ × Nat) (item : String × ℚ) : ℚ × Nat :=
  if item.2 = 0 then acc
  else
    match dget? marks item.1 with
    | none => acc
    | some mark =>
      let avg := dgetD avg_entry_price item.1 0
      if item.2 > 0 then (acc.1 + (mark - avg) * item.2, acc.2 + 1)
      else (acc.1 + (avg - mark) * |item.2|, acc.2 + 1)

/-- Embedding of `PaperExecutor.snapshot`.  `if marks:` is falsy on an
empty dict, so the mark cache is merged only when `marks` is non-empty. -/
def PaperExecutor.snapshot (s : PaperState) (marks : List (String × ℚ)) :
    PaperLedgerSnapshot × PaperState :=
  let s := if marks = [] then s else { s with marks := dupdate s.marks marks }
  let acc := s.position_qty.foldl (snapshotStep s.marks s.avg_entry_price) (0, 0)
  (⟨s.realized_pnl_total, acc.1, acc.2⟩, s)

/-- Embedding of `PaperExecutor.flatten_symbol`. -/
def PaperExecutor.flatten_symbol (s : PaperState) (symbol : String)
    (fill_price : ℚ) : Option PaperFill × PaperState :=
  let current_qty := dgetD s.position_qty symbol 0
  if current_qty = 0 then (none, s)
  else
    let price := max fill_price priceFloor
    let avg := dgetD s.avg_entry_price symbol 0
    let qty := |current_qty|
    let notional := qty * price
    let side := if current_qty > 0 then "SELL" else "BUY"
    let realized_delta :=
      if current_qty > 0 then (price - avg) * qty else (avg - price) * qty
    let total := s.realized_pnl_total + realized_delta
    (some ⟨"system_flatten", symbol, side, notional, price, qty, 0, 0,
        realized_delta, total, "filled"⟩,
      { position_qty := dinsert s.position_qty symbol 0
        avg_entry_price := dinsert s.avg_entry_price symbol 0
        marks := dinsert s.marks symbol price
        realized_pnl_total := total })

/-- Modelled from the spec: `has_open_position` is called by the
orchestrator (`main.py`) but its definition is absent from the sources;
the ledger contract says `hasOpenPosition(symbol) → bool`, true exactly
when the symbol has a nonzero position quantity (a position closes
exactly when quantity returns to zero). -/
def PaperExecutor.has_open_position (s : PaperState) (symbol : String) : Bool :=
  dgetD s.position_qty symbol 0 ≠ 0

/-- Modelled from the spec: `symbol_unrealized` is called by the
orchestrator (`main.py`) but its definition is absent from the sources;
the ledger contract says `unrealizedPnl(symbol, markPrice) → amount`, the
per-symbol `(mark − avgEntry) × qty` sign-adjusted by side as in
`snapshot`. -/
def PaperExecutor.symbol_unrealized (s : PaperState) (symbol : String)
    (mark : ℚ) : ℚ :=
  let qty := dgetD s.position_qty symbol 0
  let avg := dgetD s.avg_entry_price symbol 0
  if qty > 0 then (mark - avg) * qty
  else if qty < 0 then (avg - mark) * |qty|
  else 0

/-! ### Probability model and signal (`main.py` helpers)

The Python model works on IEEE floats through `math.erf`, `math.log` and
`math.sqrt`; the embedding works on `ℝ` and takes the standard-normal
cumulative distribution (the `_normal_cdf` helper, built on the C library
`erf`) as a function parameter. -/

/-- Embedding of `_model_prob_up`, parameterised by the cumulative normal
distribution `cdf`. -/
noncomputable def model_prob_up (cdf : ℝ → ℝ) (spot strike : ℝ)
    (time_to_expiry_s : ℝ) (sigma_annual : ℝ) : ℝ :=
  if time_to_expiry_s ≤ 0 then (if spot > strike then 1 else 0)
  else
    let t_years := max time_to_expiry_s 1 / (365 * 24 * 3600)
    let vol_t := sigma_annual * Real.sqrt t_years
    if vol_t ≤ 0 then 0.5
    else
      let z := Real.log (strike / spot) / vol_t
      let prob := 1 - cdf z
      max 0 (min 1 prob)

/-- Embedding of `_edge_bps`. -/
def edge_bps (model_prob yes_price : ℚ) : ℚ :=
  (model_prob - yes_price) * 10000

/-- Embedding of `_maybe_signal_side`. -/
def maybe_signal_side (edge : ℚ) (threshold_bps : Int) : Option Side :=
  if edge ≥ (threshold_bps : ℚ) then some Side.BUY
  else if edge ≤ -(threshold_bps : ℚ) then some Side.SELL
  else none

/-- Whether `pat` occurs at the start of some suffix of the character
list. -/
def containsSubAux (pat : List Char) : List Char → Bool
  | [] => pat.isEmpty
  | c :: rest => List.isPrefixOf pat (c :: rest) || containsSubAux pat rest

/-- Bool-valued substring test used by `_is_updown_market` (`in` on
Python strings). -/
def containsSub (s pat : String) : Bool :=
  containsSubAux pat.data s.data

/-- Active contract record (`ActiveClobMarket`); the expiry timestamp is
consumed only through the externally computed time-to-expiry, which the
tick input carries instead. -/
structure Market where
  slug : String
  condition_id : String
  question : String
  yes_token_id : String
  no_token_id : String
  yes_price : ℚ
  no_price : ℚ
  strike_price : Option ℚ
deriving DecidableEq, Repr

/-- Embedding of `_is_updown_market`. -/
def is_updown_market (m : Market) : Bool :=
  containsSub m.slug.toLower "updown" || containsSub m.question.toLower "up or down"

/-! ### Orchestrator (`main.py` loop body, one series per tick) -/

/-- Configuration values the per-series tick consumes (`cfg.demo`,
`cfg.execution.slippage_bps` and the risk caps). -/
structure OrchConfig where
  edge_threshold_bps : Int
  signal_notional_usd : ℚ
  signal_cooldown_sec : ℚ
  min_hold_sec_5m : ℚ
  min_hold_sec_15m : ℚ
  pos_stop_loss_usd : ℚ
  pos_take_profit_usd : ℚ
  slippage_bps : Int
  risk_limits : RiskLimits
deriving DecidableEq, Repr

/-- One audit record (`TradeAuditLogger.write` payload).  Fields absent
from a given write stay `none`; numeric fields keep their exact values
(the Python writer stringifies them and adds a wall-clock timestamp and,
for submits, a latency measurement — presentation only). -/
structure AuditRecord where
  intent_id : Option String := none
  series : String
  slug : String
  side : Option String := none
  notional_usd : Option ℚ := none
  spot : Option ℚ := none
  strike : Option ℚ := none
  yes_price : Option ℚ := none
  fill_price : Option ℚ := none
  qty : Option ℚ := none
  position_qty_after : Option ℚ := none
  avg_entry_price_after : Option ℚ := none
  realized_pnl_delta : Option ℚ := none
  realized_pnl_total : Option ℚ := none
  model_yes : Option ℚ := none
  edge_bps : Option ℚ := none
  status : Option String := none
  blocked_reason : Option String := none
  unrealized_pnl_at_exit : Option ℚ := none
  held_sec : Option ℚ := none
deriving DecidableEq, Repr

/-- Audit payload common to the three flatten sites (roll, expiry,
stop-loss/take-profit). -/
def flattenAudit (series slug : String) (quote_px : ℚ) (ff : PaperFill)
    (status : String) : AuditRecord :=
  { intent_id := some ff.intent_id
    series := series
    slug := slug
    side := some ff.side
    notional_usd := some ff.notional_usd
    yes_price := some quote_px
    fill_price := some ff.fill_price
    qty := some ff.qty
    position_qty_after := some ff.position_qty_after
    avg_entry_price_after := some ff.avg_entry_price_after
    realized_pnl_delta := some ff.realized_pnl_delta
    realized_pnl_total := some ff.realized_pnl_total
    status := some status }

/-- Mutable state the orchestrator threads through ticks: the component
states plus the bookkeeping dicts of `main` and the audit stream (most
recent record first). -/
structure OrchState where
  executor : PaperState
  risk : RiskState
  kill : KillSwitchState
  last_signal_ts : List (String × ℚ)
  market_open_spot : List (String × ℚ)
  last_seen_slug : List (String × String)
  last_series_yes_price : List (String × ℚ)
  settled_slug : List String
  traded_slug : List (String × String)
  position_open_ts : List (String × ℚ)
  metrics_submits : Nat
  metrics_rejects : Nat
  audit : List AuditRecord
deriving DecidableEq, Repr

/-- Per-series inputs of one tick: the resolved contract, the streamed
yes quote (if any), the spot price, the wall clock, the time to expiry
(already floored at 0 by the loop) and the fresh intent id. -/
structure TickInput where
  series : String
  market : Market
  yes_px : Option ℚ
  spot : ℚ
  now_s : ℚ
  tte_s : ℚ
  new_intent_id : String
deriving DecidableEq, Repr

/-- Step 1 of the tick (`main.py` roll detection): when the previously
seen slug differs from the resolved slug, flatten the symbol at the last
known quote for the series, audit `flatten_roll`, and clear the old
slug's open-spot memo. -/
def rollStep (series symbol market_slug : String) (yes_price : ℚ)
    (st : OrchState) : OrchState :=
  match dget? st.last_seen_slug series with
  | none => st
  | some prev_slug =>
    if prev_slug = market_slug then st
    else
      let close_px := dgetD st.last_series_yes_price series yes_price
      let r := PaperExecutor.flatten_symbol st.executor symbol close_px
      let st1 := { st with executor := r.2 }
      let st2 :=
        match r.1 with
        | none => st1
        | some ff =>
          { st1 with
            position_open_ts := dpop st1.position_open_ts symbol
            audit := flattenAudit series prev_slug close_px ff "flatten_roll" :: st1.audit }
      { st2 with market_open_spot := dpop st2.market_open_spot prev_slug }

/-- Step 2 of the tick: record the slug and quote just seen for the
series. -/
def recordSlug (series slug : String) (yes_price : ℚ) (st : OrchState) : OrchState :=
  { st with
    last_seen_slug := dinsert st.last_seen_slug series slug
    last_series_yes_price := dinsert st.last_series_yes_price series yes_price }

/-- Step 3 of the tick: resolve the effective strike — the upstream
strike if present, else for an up/down market the spot memoized at first
sight of the slug. -/
def strikeStep (market : Market) (spot : ℚ) (st : OrchState) :
    Option ℚ × OrchState :=
  match market.strike_price with
  | some k => (some k, st)
  | none =>
    if is_updown_market market then
      match dget? st.market_open_spot market.slug with
      | some open_spot => (some open_spot, st)
      | none =>
        (some spot,
          { st with market_open_spot := dinsert st.market_open_spot market.slug spot })
    else (none, st)

/-- Expiry settlement (`flatten_expiry` branch of the tick). -/
def expirySettle (series slug symbol : String) (yes_price : ℚ)
    (st : OrchState) : OrchState :=
  let r := PaperExecutor.flatten_symbol st.executor symbol yes_price
  let st1 := { st with executor := r.2, settled_slug := slug :: st.settled_slug }
  match r.1 with
  | none => st1
  | some ff =>
    { st1 with
      position_open_ts := dpop st1.position_open_ts symbol
      audit := flattenAudit series slug yes_price ff "flatten_expiry" :: st1.audit }

/-- Stop-loss/take-profit settlement (`flatten_stop_loss` /
`flatten_take_profit` branch of the tick). -/
def exitFlatten (series slug symbol : String) (yes_price unrealized held_s : ℚ)
    (reason : String) (st : OrchState) : OrchState :=
  let r := PaperExecutor.flatten_symbol st.executor symbol yes_price
  let st1 := { st with executor := r.2 }
  match r.1 with
  | none => st1
  | some ff =>
    { st1 with
      position_open_ts := dpop st1.position_open_ts symbol
      audit :=
        { flattenAudit series slug yes_price ff ("flatten_" ++ reason) with
          unrealized_pnl_at_exit := some unrealized
          held_sec := some held_s } :: st1.audit }

/-- Signal evaluation and submission (`main.py` lines after the exit
check): edge, side, kill-switch gate, cooldown, per-slug dedup, risk
gate, paper submit with bookkeeping. -/
def signalStep (cfg : OrchConfig) (inp : TickInput) (symbol : String)
    (yes_price model_strike model_p : ℚ) (st : OrchState) : OrchState :=
  let edge := edge_bps model_p yes_price
  match maybe_signal_side edge cfg.edge_threshold_bps with
  | none => st
  | some side =>
    if (KillSwitch.check st.kill).active then
      { st with
        metrics_rejects := st.metrics_rejects + 1
        audit :=
          { series := inp.series, slug := inp.market.slug
            blocked_reason := some (KillSwitch.check st.kill).reason } :: st.audit }
    else if inp.now_s - dgetD st.last_signal_ts inp.series 0 < cfg.signal_cooldown_sec then
      st
    else if dget? st.traded_slug inp.series = some inp.market.slug then
      st
    else
      let intent : OrderIntent :=
        ⟨inp.new_intent_id, symbol, side, cfg.signal_notional_usd, cfg.slippage_bps⟩
      let rd := RiskEngine.check_and_apply cfg.risk_limits st.risk intent
      if ¬ rd.1.allowed then
        { st with
          risk := rd.2
          metrics_rejects := st.metrics_rejects + 1
          audit :=
            { intent_id := some intent.intent_id
              series := inp.series, slug := inp.market.slug
              edge_bps := some edge
              blocked_reason := some rd.1.reason } :: st.audit }
      else
        let fr := PaperExecutor.submit st.executor intent yes_price
        let fill := fr.1
        let st1 :=
          { st with
            executor := fr.2
            risk := rd.2
            last_signal_ts := dinsert st.last_signal_ts inp.series inp.now_s
            traded_slug := dinsert st.traded_slug inp.series inp.market.slug }
        let st2 :=
          if fill.position_qty_after ≠ 0 ∧ dget? st1.position_open_ts symbol = none then
            { st1 with position_open_ts := dinsert st1.position_open_ts symbol inp.now_s }
          else if fill.position_qty_after = 0 then
            { st1 with position_open_ts := dpop st1.position_open_ts symbol }
          else st1
        { st2 with
          metrics_submits := st2.metrics_submits + 1
          audit :=
            { intent_id := some intent.intent_id
              series := inp.series, slug := inp.market.slug
              side := some intent.side.value
              notional_usd := some intent.notional_usd
              spot := some inp.spot
              strike := some model_strike
              yes_price := some yes_price
              fill_price := some fill.fill_price
              qty := some fill.qty
              position_qty_after := some fill.position_qty_after
              avg_entry_price_after := some fill.avg_entry_price_after
              realized_pnl_delta := some fill.realized_pnl_delta
              realized_pnl_total := some fill.realized_pnl_total
              model_yes := some model_p
              edge_bps := some edge
              status := some "submitted" } :: st2.audit }

/-- Steps 4–6 once a strike is resolved: expiry settlement, minimum-hold
stop-loss/take-profit exit, otherwise signal evaluation.  `model_p` is
the probability the model produced for this tick, supplied as an oracle
(`modelProb spot strike tte`). -/
def tickTrade (cfg : OrchConfig) (modelProb : ℚ → ℚ → ℚ → ℚ)
    (inp : TickInput) (symbol : String) (yes_price model_strike : ℚ)
    (st : OrchState) : OrchState :=
  let model_p := modelProb inp.spot model_strike inp.tte_s
  if inp.tte_s ≤ 0 then
    if inp.market.slug ∈ st.settled_slug then st
    else expirySettle inp.series inp.market.slug symbol yes_price st
  else
    let min_hold_sec :=
      if inp.series = "5m" then cfg.min_hold_sec_5m else cfg.min_hold_sec_15m
    if PaperExecutor.has_open_position st.executor symbol then
      let held_s := inp.now_s - dgetD st.position_open_ts symbol inp.now_s
      if held_s ≥ min_hold_sec then
        let unrealized := PaperExecutor.symbol_unrealized st.executor symbol yes_price
        if unrealized ≤ -cfg.pos_stop_loss_usd then
          exitFlatten inp.series inp.market.slug symbol yes_price unrealized held_s
            "stop_loss" st
        else if unrealized ≥ cfg.pos_take_profit_usd then
          exitFlatten inp.series inp.market.slug symbol yes_price unrealized held_s
            "take_profit" st
        else signalStep cfg inp symbol yes_price model_strike model_p st
      else signalStep cfg inp symbol yes_price model_strike model_p st
    else signalStep cfg inp symbol yes_price model_strike model_p st

/-- Everything the per-series tick does after roll detection and slug
recording. -/
def afterRoll (cfg : OrchConfig) (modelProb : ℚ → ℚ → ℚ → ℚ)
    (inp : TickInput) (symbol : String) (yes_price : ℚ)
    (st : OrchState) : OrchState :=
  match strikeStep inp.market inp.spot st with
  | (none, st1) => st1
  | (some model_strike, st1) =>
    tickTrade cfg modelProb inp symbol yes_price model_strike st1

/-- One full per-series iteration of the orchestrator loop body
(`main.py`, for one `series, market` pair of one tick). -/
def processSeries (cfg : OrchConfig) (modelProb : ℚ → ℚ → ℚ → ℚ)
    (inp : TickInput) (st : OrchState) : OrchState :=
  let yes_price := inp.yes_px.getD inp.market.yes_price
  let symbol := "btc_updown_" ++ inp.series
  let st1 := rollStep inp.series symbol inp.market.slug yes_price st
  let st2 := recordSlug inp.series inp.market.slug yes_price st1
  afterRoll cfg modelProb inp symbol yes_price st2

/-! ### Derived drivers and spec-side definitions used by the claims -/

/-- Submit a sequence of `(notional, fill_price)` orders of one side for
one symbol, collecting the fills in order. -/
def submitAll (s : PaperState) (side : Side) (symbol : String) :
    List (ℚ × ℚ) → List PaperFill × PaperState
  | [] => ([], s)
  | (n, p) :: rest =>
    let r := PaperExecutor.submit s ⟨"", symbol, side, n, 0⟩ p
    let rr := submitAll r.2 side symbol rest
    (r.1 :: rr.1, rr.2)

/-- Mean of the fill prices of a batch of fills weighted by fill size:
each fill contributes its notional `qty × price` to the numerator and its
quantity to the denominator (the spec's notional-weighted mean of the
fill prices). -/
def notionalWeightedMean (fills : List PaperFill) : ℚ :=
  ((fills.map fun f => f.qty * f.fill_price).sum) / ((fills.map fun f => f.qty).sum)

/-- Spec-side description of the snapshot unrealized total: the sum of
sign-adjusted `(mark − avgEntry) × qty` over exactly the position entries
with a nonzero quantity and a known mark (all others contribute
nothing). -/
def specUnrealized (marks avg_entry_price positions : List (String × ℚ)) : ℚ :=
  (positions.map fun it =>
    match dget? marks it.1 with
    | none => 0
    | some mark =>
      if it.2 = 0 then 0
      else if it.2 > 0 then (mark - dgetD avg_entry_price it.1 0) * it.2
      else (dgetD avg_entry_price it.1 0 - mark) * |it.2|).sum

/-- Risk-engine safety predicate: every per-symbol total is within the
per-symbol cap and the daily total is within the daily cap. -/
def RiskInv (limits : RiskLimits) (st : RiskState) : Prop :=
  (∀ sym, dgetD st.symbol_notional sym 0 ≤ limits.max_notional_per_symbol_usd) ∧
    st.daily_notional ≤ limits.max_daily_notional_usd

/-! ## Dict lemmas -/

theorem dget?_dinsert {β : Type} (m : List (String × β)) (key k : String) (v : β) :
    dget? (dinsert m key v) k = if key = k then some v else dget? m k := by
  induction m with
  | nil => by_cases h : key = k <;> simp [dinsert, dget?, h]
  | cons hd tl ih =>
    obtain ⟨a, b⟩ := hd
    by_cases h1 : a = key
    · subst h1
      by_cases h2 : a = k <;> simp [dinsert, dget?, h2]
    · by_cases h2 : a = k
      · subst h2
        have : ¬ key = a := fun h => h1 h.symm
        simp [dinsert, dget?, h1, this]
      · simp [dinsert, dget?, h1, h2, ih]

theorem dgetD_dinsert {β : Type} (m : List (String × β)) (key k : String)
    (v d : β) :
    dgetD (dinsert m key v) k d = if key = k then v else dgetD m k d := by
  by_cases h : key = k <;> simp [dgetD, dget?_dinsert, h]

theorem dinsert_self {β : Type} (m : List (String × β)) (key : String) (v : β)
    (h : dget? m key = some v) : dinsert m key v = m := by
  induction m with
  | nil => simp [dget?] at h
  | cons hd tl ih =>
    obtain ⟨a, b⟩ := hd
    by_cases h1 : a = key
    · subst h1
      simp [dget?] at h
      simp [dinsert, h]
    · simp [dget?, h1] at h
      simp [dinsert, h1, ih h]

/-! ## C9 -/

/-- C9: calling `flatten_symbol` on a symbol whose position quantity is
zero returns `none` and leaves the entire ledger state unchanged. -/
theorem flatten_flat_noop (s : PaperState) (symbol : String) (fill_price : ℚ)
    (h : dgetD s.position_qty symbol 0 = 0) :
    PaperExecutor.flatten_symbol s symbol fill_price = (none, s) := by
  unfold PaperExecutor.flatten_symbol
  simp [h]

/-- Witness for C9 at a concrete flat ledger. -/
theorem flatten_flat_noop_witness :
    PaperExecutor.flatten_symbol PaperState.init "btc_updown_5m" 5 =
      (none, PaperState.init) :=
  flatten_flat_noop PaperState.init "btc_updown_5m" 5 (by decide)

/-! ## C7 -/

theorem ks_run_active (es : List KSEvent) (st : KillSwitchState)
    (hact : st.active = true) (hdeact : KSEvent.deactivate ∉ es) :
    (KSEvent.run st es).active = true := by
  induction es generalizing st with
  | nil => simpa [KSEvent.run] using hact
  | cons e es ih =>
    have hne : KSEvent.deactivate ∉ es := fun h => hdeact (List.mem_cons_of_mem _ h)
    cases e with
    | activate r => exact ih _ rfl hne
    | deactivate => exact absurd (List.mem_cons_self _ _) hdeact
    | check => exact ih _ hact hne

theorem ks_run_frozen (es : List KSEvent) (st : KillSwitchState)
    (hdeact : KSEvent.deactivate ∉ es)
    (hact : ∀ r, KSEvent.activate r ∉ es) :
    KSEvent.run st es = st := by
  induction es generalizing st with
  | nil => rfl
  | cons e es ih =>
    have hne : KSEvent.deactivate ∉ es := fun h => hdeact (List.mem_cons_of_mem _ h)
    have hna : ∀ r, KSEvent.activate r ∉ es :=
      fun r h => hact r (List.mem_cons_of_mem _ h)
    cases e with
    | activate r => exact absurd (List.mem_cons_self _ _) (hact r)
    | deactivate => exact absurd (List.mem_cons_self _ _) hdeact
    | check => exact ih st hne hna

/-- C7: after `activate(reason)`, any sequence of calls containing no
`deactivate` leaves the switch active, and as long as no further
`activate` intervenes either, `check()` returns exactly the active state
with the original reason string. -/
theorem kill_switch_latched (st : KillSwitchState) (reason : String)
    (es : List KSEvent) (hdeact : KSEvent.deactivate ∉ es) :
    (KillSwitch.check (KSEvent.run (KillSwitch.activate st reason) es)).active = true ∧
    ((∀ r, KSEvent.activate r ∉ es) →
      KillSwitch.check (KSEvent.run (KillSwitch.activate st reason) es) =
        ⟨true, reason⟩) := by
  constructor
  · exact ks_run_active es _ rfl hdeact
  · intro hna
    rw [ks_run_frozen es _ hdeact hna]
    rfl

/-- Witness for C7: activation followed by two checks still reports the
original reason. -/
theorem kill_switch_latched_witness :
    (KillSwitch.check
        (KSEvent.run (KillSwitch.activate KillSwitchState.init "reject_spike")
          [KSEvent.check, KSEvent.check])).active = true ∧
    ((∀ r, KSEvent.activate r ∉ [KSEvent.check, KSEvent.check]) →
      KillSwitch.check
          (KSEvent.run (KillSwitch.activate KillSwitchState.init "reject_spike")
            [KSEvent.check, KSEvent.check]) =
        ⟨true, "reject_spike"⟩) :=
  kill_switch_latched KillSwitchState.init "reject_spike"
    [KSEvent.check, KSEvent.check] (by decide)

/-! ## C2 -/

theorem risk_step_inv (limits : RiskLimits) (st : RiskState)
    (intent : OrderIntent) (h : RiskInv limits st) :
    RiskInv limits (RiskEngine.check_and_apply limits st intent).2 := by
  obtain ⟨hs, hd⟩ := h
  by_cases h1 : dgetD st.symbol_notional intent.symbol 0 + intent.notional_usd >
      limits.max_notional_per_symbol_usd
  · simpa [RiskEngine.check_and_apply, h1] using ⟨hs, hd⟩
  · by_cases h2 : st.daily_notional + intent.notional_usd >
        limits.max_daily_notional_usd
    · simpa [RiskEngine.check_and_apply, h1, h2] using ⟨hs, hd⟩
    · constructor
      · intro sym
        simp only [RiskEngine.check_and_apply, h1, h2, if_false]
        simp only [dgetD_dinsert]
        by_cases h3 : intent.symbol = sym
        · simpa [h3] using le_of_not_lt h1
        · simpa [h3] using hs sym
      · simpa [RiskEngine.check_and_apply, h1, h2] using le_of_not_lt h2

theorem risk_run_inv (limits : RiskLimits) (intents : List OrderIntent)
    (st : RiskState) (h : RiskInv limits st) :
    RiskInv limits (RiskEngine.runIntents limits st intents) := by
  induction intents generalizing st with
  | nil => exact h
  | cons intent rest ih => exact ih _ (risk_step_inv limits st intent h)

/-- C2: from the initial state, across any sequence of intents the
per-symbol totals stay within the per-symbol cap and the daily total
within the daily cap; a rejected intent leaves the state untouched, an
accepted one adds exactly its notional to the intent symbol's total and
to the daily total; the 90-then-20-against-100 scenario behaves as
specified. -/
theorem risk_engine_caps (limits : RiskLimits)
    (hsym : 0 ≤ limits.max_notional_per_symbol_usd)
    (hday : 0 ≤ limits.max_daily_notional_usd)
    (intents : List OrderIntent) (st : RiskState) (intent : OrderIntent) :
    RiskInv limits (RiskEngine.runIntents limits RiskState.init intents) ∧
    ((RiskEngine.check_and_apply limits st intent).1.allowed = false →
      (RiskEngine.check_and_apply limits st intent).2 = st) ∧
    ((RiskEngine.check_and_apply limits st intent).1.allowed = true →
      (RiskEngine.check_and_apply limits st intent).2.daily_notional =
        st.daily_notional + intent.notional_usd ∧
      dgetD (RiskEngine.check_and_apply limits st intent).2.symbol_notional
          intent.symbol 0 =
        dgetD st.symbol_notional intent.symbol 0 + intent.notional_usd ∧
      (∀ sym, sym ≠ intent.symbol →
        dgetD (RiskEngine.check_and_apply limits st intent).2.symbol_notional sym 0 =
          dgetD st.symbol_notional sym 0)) ∧
    ((RiskEngine.check_and_apply ⟨100, 1000⟩ RiskState.init
        ⟨"1", "BTC-USD", Side.BUY, 90, 10⟩).1.allowed = true ∧
      (RiskEngine.check_and_apply ⟨100, 1000⟩
          (RiskEngine.check_and_apply ⟨100, 1000⟩ RiskState.init
            ⟨"1", "BTC-USD", Side.BUY, 90, 10⟩).2
          ⟨"2", "BTC-USD", Side.BUY, 20, 10⟩).1 =
        ⟨false, "symbol_cap_exceeded"⟩ ∧
      dgetD (RiskEngine.check_and_apply ⟨100, 1000⟩
          (RiskEngine.check_and_apply ⟨100, 1000⟩ RiskState.init
            ⟨"1", "BTC-USD", Side.BUY, 90, 10⟩).2
          ⟨"2", "BTC-USD", Side.BUY, 20, 10⟩).2.symbol_notional "BTC-USD" 0 = 90) := by
  refine ⟨?_, ?_, ?_, by
    norm_num [RiskEngine.check_and_apply, RiskState.init, dgetD, dget?, dinsert]⟩
  · exact risk_run_inv limits intents RiskState.init ⟨fun sym => by simpa [RiskState.init, dgetD, dget?] using hsym, by simpa [RiskState.init] using hday⟩
  · intro h
    by_cases h1 : dgetD st.symbol_notional intent.symbol 0 + intent.notional_usd >
        limits.max_notional_per_symbol_usd
    · simp [RiskEngine.check_and_apply, h1]
    · by_cases h2 : st.daily_notional + intent.notional_usd >
          limits.max_daily_notional_usd
      · simp [RiskEngine.check_and_apply, h1, h2]
      · simp [RiskEngine.check_and_apply, h1, h2] at h
  · intro h
    by_cases h1 : dgetD st.symbol_notional intent.symbol 0 + intent.notional_usd >
        limits.max_notional_per_symbol_usd
    · simp [RiskEngine.check_and_apply, h1] at h
    · by_cases h2 : st.daily_notional + intent.notional_usd >
          limits.max_daily_notional_usd
      · simp [RiskEngine.check_and_apply, h1, h2] at h
      · refine ⟨by simp [RiskEngine.check_and_apply, h1, h2], ?_, ?_⟩
        · simp [RiskEngine.check_and_apply, h1, h2, dgetD_dinsert]
        · intro sym hne
          have hne2 : intent.symbol ≠ sym := fun hh => hne hh.symm
          simp [RiskEngine.check_and_apply, h1, h2, dgetD_dinsert, hne2]

/-- Witness for C2: the per-symbol cap holds after the scenario sequence
under caps 100 / 1000. -/
theorem risk_engine_caps_witness :
    dgetD (RiskEngine.runIntents ⟨100, 1000⟩ RiskState.init
        [⟨"1", "BTC-USD", Side.BUY, 90, 10⟩,
         ⟨"2", "BTC-USD", Side.BUY, 20, 10⟩]).symbol_notional "BTC-USD" 0 ≤
      (100 : ℚ) :=
  (risk_engine_caps ⟨100, 1000⟩ (by norm_num) (by norm_num)
    [⟨"1", "BTC-USD", Side.BUY, 90, 10⟩, ⟨"2", "BTC-USD", Side.BUY, 20, 10⟩]
    RiskState.init ⟨"1", "BTC-USD", Side.BUY, 90, 10⟩).1.1 "BTC-USD"

/-! ## C4 -/

/-- C4: a fill whose signed quantity exactly offsets the open position —
its notional buys back exactly `|qty|` at the fill price, on the side
opposing the position — realizes `(fillPrice − avgEntry) × closingQty`
signed per the original direction and zeroes both the position quantity
and the average entry; `flatten_symbol` does the same through its
synthesized opposing fill. -/
theorem exact_offset_resets (s : PaperState) (sym iid : String) (fp : ℚ)
    (sl : Int) (hqty : dgetD s.position_qty sym 0 ≠ 0) :
    (let cur := dgetD s.position_qty sym 0
     let avg := dgetD s.avg_entry_price sym 0
     let price := max fp priceFloor
     let r := PaperExecutor.submit s
       ⟨iid, sym, if 0 < cur then Side.SELL else Side.BUY, |cur| * price, sl⟩ fp
     r.1.realized_pnl_delta =
       (if 0 < cur then (price - avg) * |cur| else (avg - price) * |cur|) ∧
     r.1.position_qty_after = 0 ∧
     r.1.avg_entry_price_after = 0 ∧
     dgetD r.2.position_qty sym 0 = 0 ∧
     dgetD r.2.avg_entry_price sym 0 = 0) ∧
    (let cur := dgetD s.position_qty sym 0
     let avg := dgetD s.avg_entry_price sym 0
     let price := max fp priceFloor
     let rf := PaperExecutor.flatten_symbol s sym fp
     rf.1.map (fun ff => ff.realized_pnl_delta) =
       some (if 0 < cur then (price - avg) * |cur| else (avg - price) * |cur|) ∧
     rf.1.map (fun ff => ff.position_qty_after) = some 0 ∧
     rf.1.map (fun ff => ff.avg_entry_price_after) = some 0 ∧
     dgetD rf.2.position_qty sym 0 = 0 ∧
     dgetD rf.2.avg_entry_price sym 0 = 0) := by
  have hfloor : (0 : ℚ) < priceFloor := by norm_num [priceFloor]
  have hprice : (0 : ℚ) < max fp priceFloor := lt_max_of_lt_right hfloor
  have habs : 0 < |dgetD s.position_qty sym 0| := abs_pos.mpr hqty
  have hq : |dgetD s.position_qty sym 0| * max fp priceFloor / max fp priceFloor =
      |dgetD s.position_qty sym 0| :=
    mul_div_cancel_right₀ _ hprice.ne'
  constructor
  · dsimp only
    rcases lt_or_gt_of_ne hqty with hneg | hpos
    · have h1 : ¬ 0 < dgetD s.position_qty sym 0 := not_lt.mpr hneg.le
      simp only [if_neg h1, PaperExecutor.submit, Side.value]
      simp only [hq]
      have hs1 : ¬ (dgetD s.position_qty sym 0 = 0 ∨
          (dgetD s.position_qty sym 0 > 0 ∧ |dgetD s.position_qty sym 0| > 0) ∨
          (dgetD s.position_qty sym 0 < 0 ∧ |dgetD s.position_qty sym 0| < 0)) := by
        push_neg
        exact ⟨hqty, fun hgt => absurd hgt h1, fun _ => habs.le⟩
      simp only [String.reduceEq, if_true, if_neg hs1, reduceIte]
      simp only [abs_abs, min_self, lt_irrefl, if_neg h1, if_false, if_pos rfl,
        dgetD_dinsert, if_true, reduceIte]
      refine ⟨?_, ?_, ?_, ?_, ?_⟩ <;> trivial
    · have h1 : 0 < dgetD s.position_qty sym 0 := hpos
      simp only [if_pos h1, PaperExecutor.submit, Side.value]
      simp only [hq]
      have hs1 : ¬ (dgetD s.position_qty sym 0 = 0 ∨
          (dgetD s.position_qty sym 0 > 0 ∧ -|dgetD s.position_qty sym 0| > 0) ∨
          (dgetD s.position_qty sym 0 < 0 ∧ -|dgetD s.position_qty sym 0| < 0)) := by
        push_neg
        exact ⟨hqty, fun _ => neg_nonpos_of_nonneg habs.le,
          fun hlt => absurd hlt (not_lt.mpr h1.le)⟩
      simp only [String.reduceEq, if_false, if_neg hs1, reduceIte]
      simp only [abs_neg, abs_abs, min_self, lt_irrefl, if_pos h1, if_false,
        if_pos rfl, dgetD_dinsert, if_true, reduceIte]
      refine ⟨?_, ?_, ?_, ?_, ?_⟩ <;> trivial
  · dsimp only
    refine ⟨?_, ?_, ?_, ?_, ?_⟩ <;>
      simp [PaperExecutor.flatten_symbol, hqty, dgetD_dinsert]

/-- Witness for C4: selling back a 10-lot long at price 6 resets the
position. -/
theorem exact_offset_resets_witness :
    (let cur := dgetD (PaperState.mk [("s", 10)] [("s", 5)] [] 0).position_qty "s" 0
     let avg := dgetD (PaperState.mk [("s", 10)] [("s", 5)] [] 0).avg_entry_price "s" 0
     let price := max 6 priceFloor
     let r := PaperExecutor.submit (PaperState.mk [("s", 10)] [("s", 5)] [] 0)
       ⟨"x", "s", if 0 < cur then Side.SELL else Side.BUY, |cur| * price, 0⟩ 6
     r.1.realized_pnl_delta =
       (if 0 < cur then (price - avg) * |cur| else (avg - price) * |cur|) ∧
     r.1.position_qty_after = 0 ∧
     r.1.avg_entry_price_after = 0 ∧
     dgetD r.2.position_qty "s" 0 = 0 ∧
     dgetD r.2.avg_entry_price "s" 0 = 0) :=
  (exact_offset_resets (PaperState.mk [("s", 10)] [("s", 5)] [] 0) "s" "x" 6 0
    (by norm_num [dgetD, dget?])).1

/-! ## C5 -/

/-- C5: an opposing-direction fill that undershoots the open position
realizes `(fillPrice − avgEntry) × closingQty` (mirrored for a short) on
the overlapping quantity, shrinks the quantity and leaves the average
entry unchanged; one that overshoots opens the residual position with
average entry exactly the new fill price; and the long-10-at-50 /
SELL-4-at-60 scenario realizes 40 leaving qty 6 at average entry 50. -/
theorem opposing_fill_cases (s : PaperState) (sym iid : String)
    (fp : ℚ) (sl : Int) (n : ℚ)
    (hqty : dgetD s.position_qty sym 0 ≠ 0) (hn : 0 < n) :
    (let cur := dgetD s.position_qty sym 0
     let avg := dgetD s.avg_entry_price sym 0
     let price := max fp priceFloor
     let r := PaperExecutor.submit s
       ⟨iid, sym, if 0 < cur then Side.SELL else Side.BUY, n, sl⟩ fp
     (n < |cur| * price →
       r.1.realized_pnl_delta =
         (if 0 < cur then (price - avg) * (n / price)
          else (avg - price) * (n / price)) ∧
       r.1.position_qty_after =
         (if 0 < cur then cur - n / price else cur + n / price) ∧
       |r.1.position_qty_after| < |cur| ∧
       r.1.avg_entry_price_after = avg) ∧
     (|cur| * price < n →
       r.1.position_qty_after =
         (if 0 < cur then cur - n / price else cur + n / price) ∧
       r.1.avg_entry_price_after = price)) ∧
    ((PaperExecutor.submit (PaperState.mk [("s", 10)] [("s", 50)] [] 0)
        ⟨"x", "s", Side.SELL, 240, 0⟩ 60).1.realized_pnl_delta = 40 ∧
     (PaperExecutor.submit (PaperState.mk [("s", 10)] [("s", 50)] [] 0)
        ⟨"x", "s", Side.SELL, 240, 0⟩ 60).1.position_qty_after = 6 ∧
     (PaperExecutor.submit (PaperState.mk [("s", 10)] [("s", 50)] [] 0)
        ⟨"x", "s", Side.SELL, 240, 0⟩ 60).1.avg_entry_price_after = 50) := by
  have hfloor : (0 : ℚ) < priceFloor := by norm_num [priceFloor]
  have hprice : (0 : ℚ) < max fp priceFloor := lt_max_of_lt_right hfloor
  have hqn : 0 < n / max fp priceFloor := div_pos hn hprice
  constructor
  · dsimp only
    rcases lt_or_gt_of_ne hqty with hneg | hpos
    · have h1 : ¬ 0 < dgetD s.position_qty sym 0 := not_lt.mpr hneg.le
      simp only [if_neg h1, PaperExecutor.submit, Side.value]
      have hs1 : ¬ (dgetD s.position_qty sym 0 = 0 ∨
          (dgetD s.position_qty sym 0 > 0 ∧ n / max fp priceFloor > 0) ∨
          (dgetD s.position_qty sym 0 < 0 ∧ n / max fp priceFloor < 0)) := by
        push_neg
        exact ⟨hqty, fun hgt => absurd hgt h1, fun _ => hqn.le⟩
      simp only [String.reduceEq, if_true, if_neg hs1, reduceIte]
      have habs : |dgetD s.position_qty sym 0| = -dgetD s.position_qty sym 0 :=
        abs_of_neg hneg
      have habsq : |n / max fp priceFloor| = n / max fp priceFloor := abs_of_pos hqn
      constructor
      · intro hund
        rw [habs] at hund
        have hlt : n / max fp priceFloor < -dgetD s.position_qty sym 0 :=
          (div_lt_iff₀ hprice).mpr hund
        have hmin : min |dgetD s.position_qty sym 0| |n / max fp priceFloor| =
            n / max fp priceFloor := by
          rw [habs, habsq]
          exact min_eq_right hlt.le
        have hgtq : |dgetD s.position_qty sym 0| > |n / max fp priceFloor| := by
          rw [habs, habsq]; exact hlt
        simp only [hmin, if_pos hgtq, if_neg h1, reduceIte]
        refine ⟨by trivial, by trivial, ?_, by trivial⟩
        have hsum : dgetD s.position_qty sym 0 + n / max fp priceFloor < 0 := by
          linarith
        rw [habs, abs_of_neg hsum]
        linarith
      · intro hover
        rw [habs] at hover
        have hlt : -dgetD s.position_qty sym 0 < n / max fp priceFloor :=
          (lt_div_iff₀ hprice).mpr hover
        have hngt : ¬ |dgetD s.position_qty sym 0| > |n / max fp priceFloor| := by
          rw [habs, habsq]; exact not_lt.mpr hlt.le
        have hne : ¬ |dgetD s.position_qty sym 0| = |n / max fp priceFloor| := by
          rw [habs, habsq]; exact ne_of_lt hlt
        simp only [if_neg hngt, if_neg hne, reduceIte]
        exact ⟨by trivial, by trivial⟩
    · have h1 : 0 < dgetD s.position_qty sym 0 := hpos
      simp only [if_pos h1, PaperExecutor.submit, Side.value]
      have hs1 : ¬ (dgetD s.position_qty sym 0 = 0 ∨
          (dgetD s.position_qty sym 0 > 0 ∧ -(n / max fp priceFloor) > 0) ∨
          (dgetD s.position_qty sym 0 < 0 ∧ -(n / max fp priceFloor) < 0)) := by
        push_neg
        exact ⟨hqty, fun _ => neg_nonpos_of_nonneg hqn.le,
          fun hlt => absurd hlt (not_lt.mpr h1.le)⟩
      simp only [String.reduceEq, if_false, if_neg hs1, reduceIte]
      have habs : |dgetD s.position_qty sym 0| = dgetD s.position_qty sym 0 :=
        abs_of_pos hpos
      have habsq : |(-(n / max fp priceFloor))| = n / max fp priceFloor := by
        rw [abs_neg]; exact abs_of_pos hqn
      constructor
      · intro hund
        rw [habs] at hund
        have hlt : n / max fp priceFloor < dgetD s.position_qty sym 0 :=
          (div_lt_iff₀ hprice).mpr hund
        have hmin : min |dgetD s.position_qty sym 0| |(-(n / max fp priceFloor))| =
            n / max fp priceFloor := by
          rw [habs, habsq]
          exact min_eq_right hlt.le
        have hgtq : |dgetD s.position_qty sym 0| > |(-(n / max fp priceFloor))| := by
          rw [habs, habsq]; exact hlt
        simp only [hmin, if_pos hgtq, if_pos h1, reduceIte]
        refine ⟨by trivial, by ring, ?_, by trivial⟩
        have hsum : 0 < dgetD s.position_qty sym 0 + -(n / max fp priceFloor) := by
          linarith
        rw [habs, abs_of_pos hsum]
        linarith
      · intro hover
        rw [habs] at hover
        have hlt : dgetD s.position_qty sym 0 < n / max fp priceFloor :=
          (lt_div_iff₀ hprice).mpr hover
        have hngt : ¬ |dgetD s.position_qty sym 0| > |(-(n / max fp priceFloor))| := by
          rw [habs, habsq]; exact not_lt.mpr hlt.le
        have hne : ¬ |dgetD s.position_qty sym 0| = |(-(n / max fp priceFloor))| := by
          rw [habs, habsq]; exact ne_of_lt hlt
        simp only [if_neg hngt, if_neg hne, reduceIte]
        exact ⟨by ring, by trivial⟩
  · have h60 : max (60 : ℚ) priceFloor = 60 := max_eq_left (by norm_num [priceFloor])
    have hSB : ("SELL" : String) ≠ "BUY" := by decide
    have habs4 : |(-4 : ℚ)| = 4 := by
      rw [abs_neg]; exact abs_of_pos (by norm_num)
    have hmin104 : ((10 : ℚ) ⊓ (4 : ℚ)) = 4 := min_eq_right (by norm_num)
    refine ⟨?_, ?_, ?_⟩ <;>
      norm_num [PaperExecutor.submit, Side.value, dgetD, dget?, weighted_avg, h60,
        hSB, habs4, hmin104]

/-- Witness for C5 via its concrete scenario conjunct. -/
theorem opposing_fill_cases_witness :
    ((PaperExecutor.submit (PaperState.mk [("s", 10)] [("s", 50)] [] 0)
        ⟨"x", "s", Side.SELL, 240, 0⟩ 60).1.realized_pnl_delta = 40 ∧
     (PaperExecutor.submit (PaperState.mk [("s", 10)] [("s", 50)] [] 0)
        ⟨"x", "s", Side.SELL, 240, 0⟩ 60).1.position_qty_after = 6 ∧
     (PaperExecutor.submit (PaperState.mk [("s", 10)] [("s", 50)] [] 0)
        ⟨"x", "s", Side.SELL, 240, 0⟩ 60).1.avg_entry_price_after = 50) :=
  (opposing_fill_cases (PaperState.mk [("s", 10)] [("s", 50)] [] 0) "s" "x" 60 0 240
    (by norm_num [dgetD, dget?]) (by norm_num)).2

/-! ## C3 -/

theorem submit_same_dir_step (s : PaperState) (symbol iid : String) (sl : Int)
    (side : Side) (n p : ℚ) (hn : 0 < n)
    (hsign : if side = Side.BUY then 0 ≤ dgetD s.position_qty symbol 0
      else dgetD s.position_qty symbol 0 ≤ 0) :
    (let price := max p priceFloor
     let qn := n / price
     let signed := if side = Side.BUY then qn else -qn
     let r := PaperExecutor.submit s ⟨iid, symbol, side, n, sl⟩ p
     r.1.realized_pnl_delta = 0 ∧
     r.2.realized_pnl_total = s.realized_pnl_total ∧
     dgetD r.2.position_qty symbol 0 = dgetD s.position_qty symbol 0 + signed ∧
     dgetD r.2.avg_entry_price symbol 0 *
         (|dgetD s.position_qty symbol 0| + qn) =
       |dgetD s.position_qty symbol 0| * dgetD s.avg_entry_price symbol 0 + n) := by
  have hfloor : (0 : ℚ) < priceFloor := by norm_num [priceFloor]
  have hprice : (0 : ℚ) < max p priceFloor := lt_max_of_lt_right hfloor
  have hqn : 0 < n / max p priceFloor := div_pos hn hprice
  have hqnp : n / max p priceFloor * max p priceFloor = n :=
    div_mul_cancel₀ n hprice.ne'
  dsimp only
  cases side with
  | BUY =>
    simp only [eq_self_iff_true, ite_true] at hsign ⊢
    have hcond : dgetD s.position_qty symbol 0 = 0 ∨
        (dgetD s.position_qty symbol 0 > 0 ∧ n / max p priceFloor > 0) ∨
        (dgetD s.position_qty symbol 0 < 0 ∧ n / max p priceFloor < 0) := by
      rcases eq_or_lt_of_le hsign with h | h
      · exact Or.inl h.symm
      · exact Or.inr (Or.inl ⟨h, hqn⟩)
    simp only [PaperExecutor.submit, Side.value, String.reduceEq, ite_true,
      if_pos hcond, reduceIte]
    refine ⟨by trivial, by simp, ?_, ?_⟩
    · rw [dgetD_dinsert, if_pos rfl]
    · rw [dgetD_dinsert, if_pos rfl]
      unfold weighted_avg
      have habsq : |n / max p priceFloor| = n / max p priceFloor := abs_of_pos hqn
      have hden : |dgetD s.position_qty symbol 0| + n / max p priceFloor ≠ 0 := by
        have := abs_nonneg (dgetD s.position_qty symbol 0)
        positivity
      simp only [habsq]
      rw [if_neg hden, div_mul_cancel₀ _ hden, hqnp]
  | SELL =>
    have hSB : ¬ (Side.SELL = Side.BUY) := by decide
    simp only [hSB, ite_false] at hsign ⊢
    have hcond : dgetD s.position_qty symbol 0 = 0 ∨
        (dgetD s.position_qty symbol 0 > 0 ∧ -(n / max p priceFloor) > 0) ∨
        (dgetD s.position_qty symbol 0 < 0 ∧ -(n / max p priceFloor) < 0) := by
      rcases eq_or_lt_of_le hsign with h | h
      · exact Or.inl h
      · exact Or.inr (Or.inr ⟨h, neg_neg_of_pos hqn⟩)
    simp only [PaperExecutor.submit, Side.value, String.reduceEq, ite_false,
      if_pos hcond, reduceIte]
    refine ⟨by trivial, by simp, ?_, ?_⟩
    · rw [dgetD_dinsert, if_pos rfl]
    · rw [dgetD_dinsert, if_pos rfl]
      unfold weighted_avg
      have habsq : |(-(n / max p priceFloor))| = n / max p priceFloor := by
        rw [abs_neg]; exact abs_of_pos hqn
      have hden : |dgetD s.position_qty symbol 0| + n / max p priceFloor ≠ 0 := by
        have := abs_nonneg (dgetD s.position_qty symbol 0)
        positivity
      simp only [habsq]
      rw [if_neg hden, div_mul_cancel₀ _ hden, hqnp]

theorem submitAll_components (side : Side) (symbol : String)
    (l : List (ℚ × ℚ)) :
    ∀ s, ((submitAll s side symbol l).1.map fun f => (f.qty, f.fill_price)) =
      l.map fun np => (np.1 / max np.2 priceFloor, max np.2 priceFloor) := by
  induction l with
  | nil => intro s; rfl
  | cons hd tl ih =>
    intro s
    obtain ⟨n, p⟩ := hd
    simp only [submitAll, List.map_cons, List.cons.injEq]
    exact ⟨rfl, ih _⟩

theorem submitAll_same_dir (side : Side) (symbol : String) :
    ∀ (l : List (ℚ × ℚ)), (∀ f ∈ l, 0 < f.1) →
    ∀ (s : PaperState),
      (if side = Side.BUY then 0 ≤ dgetD s.position_qty symbol 0
       else dgetD s.position_qty symbol 0 ≤ 0) →
      dgetD (submitAll s side symbol l).2.position_qty symbol 0 =
        dgetD s.position_qty symbol 0 +
          (if side = Side.BUY then (1 : ℚ) else -1) *
            (l.map fun np => np.1 / max np.2 priceFloor).sum ∧
      dgetD (submitAll s side symbol l).2.avg_entry_price symbol 0 *
          (|dgetD s.position_qty symbol 0| +
            (l.map fun np => np.1 / max np.2 priceFloor).sum) =
        |dgetD s.position_qty symbol 0| * dgetD s.avg_entry_price symbol 0 +
          (l.map Prod.fst).sum ∧
      (submitAll s side symbol l).2.realized_pnl_total = s.realized_pnl_total ∧
      (∀ f ∈ (submitAll s side symbol l).1, f.realized_pnl_delta = 0) := by
  intro l
  induction l with
  | nil =>
    intro _ s _
    refine ⟨?_, ?_, rfl, ?_⟩
    · simp [submitAll]
    · simp only [submitAll, List.map_nil, List.sum_nil, add_zero]
      ring
    · intro f hf
      simp [submitAll] at hf
  | cons hd tl ih =>
    intro hpos s hsign
    obtain ⟨n, p⟩ := hd
    have hn : 0 < n := hpos (n, p) (List.mem_cons_self _ _)
    have hpos2 : ∀ f ∈ tl, 0 < f.1 := fun f hf => hpos f (List.mem_cons_of_mem _ hf)
    have hfloor : (0 : ℚ) < priceFloor := by norm_num [priceFloor]
    have hprice : (0 : ℚ) < max p priceFloor := lt_max_of_lt_right hfloor
    have hqn : 0 < n / max p priceFloor := div_pos hn hprice
    have hstep := submit_same_dir_step s symbol "" 0 side n p hn hsign
    dsimp only at hstep
    obtain ⟨hdelta, htotal, hq1, ha1⟩ := hstep
    set s1 := (PaperExecutor.submit s ⟨"", symbol, side, n, 0⟩ p).2 with hs1
    have hSB : ¬ (Side.SELL = Side.BUY) := by decide
    have hsign1 : if side = Side.BUY then 0 ≤ dgetD s1.position_qty symbol 0
        else dgetD s1.position_qty symbol 0 ≤ 0 := by
      cases side with
      | BUY =>
        simp only [eq_self_iff_true, ite_true] at hsign hq1 ⊢
        rw [hq1]
        linarith [hqn.le]
      | SELL =>
        simp only [hSB, ite_false] at hsign hq1 ⊢
        rw [hq1]
        linarith [hqn.le]
    have habs1 : |dgetD s1.position_qty symbol 0| =
        |dgetD s.position_qty symbol 0| + n / max p priceFloor := by
      cases side with
      | BUY =>
        simp only [eq_self_iff_true, ite_true] at hsign hq1
        rw [hq1, abs_of_nonneg (by linarith [hqn.le] :
            (0 : ℚ) ≤ dgetD s.position_qty symbol 0 + n / max p priceFloor),
          abs_of_nonneg hsign]
      | SELL =>
        simp only [hSB, ite_false] at hsign hq1
        rw [hq1, abs_of_nonpos (by linarith [hqn.le] :
            dgetD s.position_qty symbol 0 + -(n / max p priceFloor) ≤ 0),
          abs_of_nonpos hsign]
        ring
    obtain ⟨ihq, iha, ihtot, ihfills⟩ := ih hpos2 s1 hsign1
    have hrec : submitAll s side symbol ((n, p) :: tl) =
        ((PaperExecutor.submit s ⟨"", symbol, side, n, 0⟩ p).1 ::
            (submitAll s1 side symbol tl).1,
          (submitAll s1 side symbol tl).2) := rfl
    refine ⟨?_, ?_, ?_, ?_⟩
    · rw [hrec]
      dsimp only
      rw [ihq, hq1]
      cases side with
      | BUY =>
        simp only [eq_self_iff_true, ite_true, List.map_cons, List.sum_cons]
        ring
      | SELL =>
        simp only [hSB, ite_false, List.map_cons, List.sum_cons]
        ring
    · rw [hrec]
      dsimp only
      have key : dgetD (submitAll s1 side symbol tl).2.avg_entry_price symbol 0 *
          ((|dgetD s.position_qty symbol 0| + n / max p priceFloor) +
            (tl.map fun np => np.1 / max np.2 priceFloor).sum) =
          (|dgetD s.position_qty symbol 0| + n / max p priceFloor) *
            dgetD s1.avg_entry_price symbol 0 +
            (tl.map Prod.fst).sum := by
        have h2 := iha
        rw [habs1] at h2
        exact h2
      simp only [List.map_cons, List.sum_cons]
      calc dgetD (submitAll s1 side symbol tl).2.avg_entry_price symbol 0 *
            (|dgetD s.position_qty symbol 0| +
              (n / max p priceFloor +
                (tl.map fun np => np.1 / max np.2 priceFloor).sum))
          = dgetD (submitAll s1 side symbol tl).2.avg_entry_price symbol 0 *
            ((|dgetD s.position_qty symbol 0| + n / max p priceFloor) +
              (tl.map fun np => np.1 / max np.2 priceFloor).sum) := by ring
        _ = (|dgetD s.position_qty symbol 0| + n / max p priceFloor) *
              dgetD s1.avg_entry_price symbol 0 + (tl.map Prod.fst).sum := key
        _ = (|dgetD s.position_qty symbol 0| * dgetD s.avg_entry_price symbol 0 +
              n) + (tl.map Prod.fst).sum := by rw [← ha1]; ring
        _ = |dgetD s.position_qty symbol 0| * dgetD s.avg_entry_price symbol 0 +
              (n + (tl.map Prod.fst).sum) := by ring
    · rw [hrec]
      dsimp only
      exact ihtot.trans htotal
    · rw [hrec]
      dsimp only
      intro f hf
      rcases List.mem_cons.mp hf with h | h
      · rw [h]; exact hdelta
      · exact ihfills f h

/-- C3: from a flat book, any sequence of positive-notional
same-direction fills keeps every realized-PnL delta at zero, makes the
position quantity the algebraic sum of the signed fill quantities, and
makes the average entry price the notional-weighted mean of the fill
prices. -/
theorem same_direction_fills (side : Side) (symbol : String)
    (fills : List (ℚ × ℚ)) (hpos : ∀ f ∈ fills, 0 < f.1) :
    (∀ f ∈ (submitAll PaperState.init side symbol fills).1,
      f.realized_pnl_delta = 0) ∧
    dgetD (submitAll PaperState.init side symbol fills).2.position_qty symbol 0 =
      (if side = Side.BUY then (1 : ℚ) else -1) *
        (fills.map fun np => np.1 / max np.2 priceFloor).sum ∧
    (fills ≠ [] →
      dgetD (submitAll PaperState.init side symbol fills).2.avg_entry_price
          symbol 0 =
        notionalWeightedMean (submitAll PaperState.init side symbol fills).1) := by
  have hinit0 : dgetD PaperState.init.position_qty symbol 0 = 0 := rfl
  have hsign : if side = Side.BUY then
      0 ≤ dgetD PaperState.init.position_qty symbol 0
      else dgetD PaperState.init.position_qty symbol 0 ≤ 0 := by
    cases side <;> simp [hinit0]
  obtain ⟨hq, ha, _, hfills⟩ :=
    submitAll_same_dir side symbol fills hpos PaperState.init hsign
  refine ⟨hfills, ?_, ?_⟩
  · rw [hq, hinit0, zero_add]
  · intro hne
    have hqsum : 0 < (fills.map fun np => np.1 / max np.2 priceFloor).sum := by
      apply List.sum_pos
      · intro x hx
        rcases List.mem_map.mp hx with ⟨np, hnp, rfl⟩
        have hfloor : (0 : ℚ) < priceFloor := by norm_num [priceFloor]
        exact div_pos (hpos np hnp) (lt_max_of_lt_right hfloor)
      · simpa using hne
    rw [hinit0] at ha
    simp only [abs_zero, zero_add, zero_mul] at ha
    have hcomp := submitAll_components side symbol fills PaperState.init
    have hqty : ((submitAll PaperState.init side symbol fills).1.map
        fun f => f.qty).sum =
        (fills.map fun np => np.1 / max np.2 priceFloor).sum := by
      have : ((submitAll PaperState.init side symbol fills).1.map
          fun f => f.qty) =
          (fills.map fun np => np.1 / max np.2 priceFloor) := by
        have h1 := congrArg (List.map Prod.fst) hcomp
        simpa [List.map_map, Function.comp] using h1
      rw [this]
    have hnot : ((submitAll PaperState.init side symbol fills).1.map
        fun f => f.qty * f.fill_price).sum = (fills.map Prod.fst).sum := by
      have h1 := congrArg (List.map fun x : ℚ × ℚ => x.1 * x.2) hcomp
      simp only [List.map_map, Function.comp] at h1
      have h2 : (fills.map fun np =>
          np.1 / max np.2 priceFloor * max np.2 priceFloor) =
          fills.map Prod.fst := by
        apply List.map_congr_left
        intro np _
        have hfloor : (0 : ℚ) < priceFloor := by norm_num [priceFloor]
        exact div_mul_cancel₀ _ (lt_max_of_lt_right hfloor).ne'
      rw [show ((submitAll PaperState.init side symbol fills).1.map
          fun f => f.qty * f.fill_price) =
          (fills.map fun np =>
            np.1 / max np.2 priceFloor * max np.2 priceFloor) from h1, h2]
    unfold notionalWeightedMean
    rw [hqty, hnot, eq_div_iff hqsum.ne', ha]

/-- Witness for C3: two buys of notional 6 at prices 2 and 3 leave an
average entry of 12/5. -/
theorem same_direction_fills_witness :
    (fun r =>
      (∀ f ∈ r.1, f.realized_pnl_delta = 0) ∧
      dgetD r.2.position_qty "s" 0 =
        (if Side.BUY = Side.BUY then (1 : ℚ) else -1) *
          (([((6 : ℚ), (2 : ℚ)), (6, 3)].map
            fun np => np.1 / max np.2 priceFloor).sum) ∧
      (([((6 : ℚ), (2 : ℚ)), (6, 3)] : List (ℚ × ℚ)) ≠ [] →
        dgetD r.2.avg_entry_price "s" 0 = notionalWeightedMean r.1))
      (submitAll PaperState.init Side.BUY "s" [(6, 2), (6, 3)]) :=
  same_direction_fills Side.BUY "s" [(6, 2), (6, 3)]
    (by
      intro f hf
      simp only [List.mem_cons, List.not_mem_nil, or_false] at hf
      rcases hf with rfl | rfl <;> norm_num)

/-! ## C10 -/

theorem snapshot_fold_sum (marks avgm : List (String × ℚ)) :
    ∀ (positions : List (String × ℚ)) (acc : ℚ × Nat),
      (positions.foldl (snapshotStep marks avgm) acc).1 =
        acc.1 + specUnrealized marks avgm positions := by
  intro positions
  induction positions with
  | nil => intro acc; simp [specUnrealized]
  | cons hd tl ih =>
    intro acc
    have hstep : (snapshotStep marks avgm acc hd).1 = acc.1 +
        (match dget? marks hd.1 with
         | none => 0
         | some mark =>
           if hd.2 = 0 then 0
           else if hd.2 > 0 then (mark - dgetD avgm hd.1 0) * hd.2
           else (dgetD avgm hd.1 0 - mark) * |hd.2|) := by
      unfold snapshotStep
      by_cases h0 : hd.2 = 0
      · cases hm : dget? marks hd.1 <;> simp [h0, hm]
      · cases hm : dget? marks hd.1
        · simp [h0, hm]
        · by_cases hgt : hd.2 > 0 <;> simp [h0, hm, hgt]
    rw [List.foldl_cons, ih, hstep]
    unfold specUnrealized
    rw [List.map_cons, List.sum_cons]
    ring

/-- C10: a snapshot call with non-empty marks merges them permanently
into the ledger's mark cache while leaving positions, average entries and
the realized total unchanged; its unrealized total is the sum of the
sign-adjusted mark-to-entry terms over exactly the nonzero positions with
a known (merged) mark; and a later snapshot with no marks reproduces the
same unrealized total from the merged cache. -/
theorem snapshot_merges_marks (s : PaperState) (marks : List (String × ℚ))
    (hne : marks ≠ []) :
    (PaperExecutor.snapshot s marks).2.marks = dupdate s.marks marks ∧
    (PaperExecutor.snapshot s marks).2.position_qty = s.position_qty ∧
    (PaperExecutor.snapshot s marks).2.avg_entry_price = s.avg_entry_price ∧
    (PaperExecutor.snapshot s marks).2.realized_pnl_total = s.realized_pnl_total ∧
    (PaperExecutor.snapshot s marks).1.unrealized_pnl_total =
      specUnrealized (dupdate s.marks marks) s.avg_entry_price s.position_qty ∧
    (PaperExecutor.snapshot
        (PaperExecutor.snapshot s marks).2 []).1.unrealized_pnl_total =
      (PaperExecutor.snapshot s marks).1.unrealized_pnl_total := by
  unfold PaperExecutor.snapshot
  rw [if_neg hne]
  refine ⟨rfl, rfl, rfl, rfl, ?_, ?_⟩
  · dsimp only
    rw [snapshot_fold_sum, zero_add]
  · dsimp only
    rw [if_pos rfl]

/-- Witness for C10 at a concrete ledger with one marked long, one flat
entry and a stale mark. -/
theorem snapshot_merges_marks_witness :
    (PaperExecutor.snapshot
        (PaperState.mk [("a", 2), ("b", 0)] [("a", 3)] [("c", 1)] 7)
        [("a", 5)]).2.marks =
      dupdate (PaperState.mk [("a", 2), ("b", 0)] [("a", 3)] [("c", 1)] 7).marks
        [("a", 5)] :=
  (snapshot_merges_marks
    (PaperState.mk [("a", 2), ("b", 0)] [("a", 3)] [("c", 1)] 7)
    [("a", 5)] (by simp)).1

/-! ## C8 -/

/-- C8: the probability model returns exactly 1 or 0 at or past expiry
according to whether spot exceeds strike; exactly 0.5 when the
volatility-time product is not positive; otherwise `1 − Φ(z)` with
`z = ln(strike/spot)/(sigma·√t_years)` for any cumulative distribution Φ
valued in [0,1]; and the result always lies in [0,1]. -/
theorem model_prob_up_spec (cdf : ℝ → ℝ) (spot strike tte sigma : ℝ) :
    (tte ≤ 0 → model_prob_up cdf spot strike tte sigma =
      if spot > strike then 1 else 0) ∧
    (0 < tte → sigma * Real.sqrt (max tte 1 / (365 * 24 * 3600)) ≤ 0 →
      model_prob_up cdf spot strike tte sigma = 0.5) ∧
    (0 < tte → 0 < sigma * Real.sqrt (max tte 1 / (365 * 24 * 3600)) →
      (∀ x, cdf x ∈ Set.Icc (0 : ℝ) 1) →
      model_prob_up cdf spot strike tte sigma =
        1 - cdf (Real.log (strike / spot) /
          (sigma * Real.sqrt (max tte 1 / (365 * 24 * 3600))))) ∧
    (0 ≤ model_prob_up cdf spot strike tte sigma ∧
      model_prob_up cdf spot strike tte sigma ≤ 1) := by
  unfold model_prob_up
  refine ⟨?_, ?_, ?_, ?_⟩
  · intro h
    rw [if_pos h]
  · intro h hv
    rw [if_neg (not_le.mpr h)]
    dsimp only
    rw [if_pos hv]
  · intro h hv hcdf
    rw [if_neg (not_le.mpr h)]
    dsimp only
    rw [if_neg (not_le.mpr hv)]
    obtain ⟨hc0, hc1⟩ := Set.mem_Icc.mp (hcdf (Real.log (strike / spot) /
      (sigma * Real.sqrt (max tte 1 / (365 * 24 * 3600)))))
    rw [min_eq_right (by linarith), max_eq_right (by linarith)]
  · by_cases h1 : tte ≤ 0
    · rw [if_pos h1]
      by_cases h2 : spot > strike
      · rw [if_pos h2]; exact ⟨zero_le_one, le_refl 1⟩
      · rw [if_neg h2]; exact ⟨le_refl 0, zero_le_one⟩
    · rw [if_neg h1]
      dsimp only
      by_cases h3 : sigma * Real.sqrt (max tte 1 / (365 * 24 * 3600)) ≤ 0
      · rw [if_pos h3]; norm_num
      · rw [if_neg h3]
        exact ⟨le_max_left 0 _, max_le (by norm_num) (min_le_left 1 _)⟩

/-- Witness for C8: the three regimes at concrete inputs, with the
constant-half distribution. -/
theorem model_prob_up_spec_witness :
    model_prob_up (fun _ => 1 / 2) 2 1 0 1 = 1 ∧
    model_prob_up (fun _ => 1 / 2) 1 2 100 0 = 0.5 ∧
    model_prob_up (fun _ => 1 / 2) 1 2 100 1 = 1 - 1 / 2 := by
  refine ⟨?_, ?_, ?_⟩
  · rw [(model_prob_up_spec (fun _ => 1 / 2) 2 1 0 1).1 le_rfl]
    norm_num
  · exact (model_prob_up_spec (fun _ => 1 / 2) 1 2 100 0).2.1 (by norm_num)
      (by simp)
  · exact (model_prob_up_spec (fun _ => 1 / 2) 1 2 100 1).2.2.1 (by norm_num)
      (by
        rw [one_mul]
        apply Real.sqrt_pos.mpr
        rw [show max (100 : ℝ) 1 = 100 from max_eq_left (by norm_num)]
        norm_num)
      (fun x => by norm_num [Set.mem_Icc])

/-! ## C1 -/

theorem flatten_some_of_open (s : PaperState) (symbol : String) (fp : ℚ)
    (h : dgetD s.position_qty symbol 0 ≠ 0) :
    ∃ ff, (PaperExecutor.flatten_symbol s symbol fp).1 = some ff := by
  unfold PaperExecutor.flatten_symbol
  dsimp only
  rw [if_neg h]
  exact ⟨_, rfl⟩

/-- C1: the ledger exposes `has_open_position` and `symbol_unrealized`,
and on a tick with no roll, a resolved strike and time left on the clock,
if an open position's series minimum hold has elapsed and its unrealized
PnL breaches a stop-loss/take-profit threshold, the tick flattens the
position at the current quote, audits one record tagged
`flatten_stop_loss` / `flatten_take_profit`, and performs no signal
evaluation (risk state, cooldown stamp, traded-slug marker and submit
counter are untouched). -/
theorem exit_check_flattens (cfg : OrchConfig) (mp : ℚ → ℚ → ℚ → ℚ)
    (inp : TickInput) (st : OrchState) (k : ℚ)
    (hseen : dget? st.last_seen_slug inp.series = some inp.market.slug)
    (hstrike : inp.market.strike_price = some k)
    (htte : 0 < inp.tte_s)
    (hopen : PaperExecutor.has_open_position st.executor
      ("btc_updown_" ++ inp.series) = true)
    (hheld : inp.now_s - dgetD st.position_open_ts ("btc_updown_" ++ inp.series)
        inp.now_s ≥
      (if inp.series = "5m" then cfg.min_hold_sec_5m else cfg.min_hold_sec_15m))
    (hbreach : PaperExecutor.symbol_unrealized st.executor
        ("btc_updown_" ++ inp.series) (inp.yes_px.getD inp.market.yes_price) ≤
          -cfg.pos_stop_loss_usd ∨
      (¬ PaperExecutor.symbol_unrealized st.executor ("btc_updown_" ++ inp.series)
          (inp.yes_px.getD inp.market.yes_price) ≤ -cfg.pos_stop_loss_usd ∧
        PaperExecutor.symbol_unrealized st.executor ("btc_updown_" ++ inp.series)
          (inp.yes_px.getD inp.market.yes_price) ≥ cfg.pos_take_profit_usd)) :
    (processSeries cfg mp inp st).executor =
      (PaperExecutor.flatten_symbol st.executor ("btc_updown_" ++ inp.series)
        (inp.yes_px.getD inp.market.yes_price)).2 ∧
    (∃ r, (processSeries cfg mp inp st).audit = r :: st.audit ∧
      r.status = some ("flatten_" ++
        (if PaperExecutor.symbol_unrealized st.executor
            ("btc_updown_" ++ inp.series) (inp.yes_px.getD inp.market.yes_price) ≤
            -cfg.pos_stop_loss_usd
         then "stop_loss" else "take_profit")) ∧
      r.series = inp.series ∧ r.slug = inp.market.slug ∧
      r.yes_price = some (inp.yes_px.getD inp.market.yes_price) ∧
      r.unrealized_pnl_at_exit = some (PaperExecutor.symbol_unrealized st.executor
        ("btc_updown_" ++ inp.series) (inp.yes_px.getD inp.market.yes_price)) ∧
      r.held_sec = some (inp.now_s -
        dgetD st.position_open_ts ("btc_updown_" ++ inp.series) inp.now_s)) ∧
    (processSeries cfg mp inp st).risk = st.risk ∧
    (processSeries cfg mp inp st).last_signal_ts = st.last_signal_ts ∧
    (processSeries cfg mp inp st).traded_slug = st.traded_slug ∧
    (processSeries cfg mp inp st).metrics_submits = st.metrics_submits ∧
    (processSeries cfg mp inp st).position_open_ts =
      dpop st.position_open_ts ("btc_updown_" ++ inp.series) := by
  have hqty : dgetD st.executor.position_qty ("btc_updown_" ++ inp.series) 0 ≠ 0 := by
    simpa [PaperExecutor.has_open_position] using hopen
  have hroll : rollStep inp.series ("btc_updown_" ++ inp.series) inp.market.slug
      (inp.yes_px.getD inp.market.yes_price) st = st := by
    unfold rollStep
    rw [hseen]
    simp
  have hstep1 : processSeries cfg mp inp st =
      tickTrade cfg mp inp ("btc_updown_" ++ inp.series)
        (inp.yes_px.getD inp.market.yes_price) k
        (recordSlug inp.series inp.market.slug
          (inp.yes_px.getD inp.market.yes_price) st) := by
    unfold processSeries afterRoll
    dsimp only
    rw [hroll]
    unfold strikeStep
    rw [hstrike]
  have hstep2 : tickTrade cfg mp inp ("btc_updown_" ++ inp.series)
      (inp.yes_px.getD inp.market.yes_price) k
      (recordSlug inp.series inp.market.slug
        (inp.yes_px.getD inp.market.yes_price) st) =
      exitFlatten inp.series inp.market.slug ("btc_updown_" ++ inp.series)
        (inp.yes_px.getD inp.market.yes_price)
        (PaperExecutor.symbol_unrealized st.executor ("btc_updown_" ++ inp.series)
          (inp.yes_px.getD inp.market.yes_price))
        (inp.now_s - dgetD st.position_open_ts ("btc_updown_" ++ inp.series)
          inp.now_s)
        (if PaperExecutor.symbol_unrealized st.executor
            ("btc_updown_" ++ inp.series) (inp.yes_px.getD inp.market.yes_price) ≤
            -cfg.pos_stop_loss_usd
         then "stop_loss" else "take_profit")
        (recordSlug inp.series inp.market.slug
          (inp.yes_px.getD inp.market.yes_price) st) := by
    unfold tickTrade recordSlug
    dsimp only
    rw [if_neg (not_le.mpr htte), hopen, if_pos rfl, if_pos hheld]
    rcases hbreach with hb | ⟨hb1, hb2⟩
    · rw [if_pos hb, if_pos hb]
    · rw [if_neg hb1, if_pos hb2, if_neg hb1]
  obtain ⟨ff, hff⟩ := flatten_some_of_open st.executor ("btc_updown_" ++ inp.series)
    (inp.yes_px.getD inp.market.yes_price) hqty
  rw [hstep1, hstep2]
  unfold exitFlatten recordSlug
  dsimp only
  rw [hff]
  dsimp only
  refine ⟨rfl, ⟨_, rfl, rfl, rfl, rfl, rfl, rfl, rfl⟩, rfl, rfl, rfl, rfl, rfl⟩

/-- Witness for C1: a 5m series holding a long 10-lot at entry 1/2,
quoted 1/10 (unrealized −4, stop-loss 3), flattens on the tick. -/
theorem exit_check_flattens_witness :
    (processSeries ⟨800, 25, 20, 45, 90, 3, 18, 10, ⟨1000, 10000⟩⟩
        (fun _ _ _ => 0)
        ⟨"5m", ⟨"slugB", "cond", "q", "yt", "nt", 1 / 10, 9 / 10, some 50000⟩,
          some (1 / 10), 50000, 1000, 100, "id1"⟩
        ⟨⟨[("btc_updown_5m", 10)], [("btc_updown_5m", 1 / 2)], [], 0⟩,
          ⟨0, []⟩, ⟨false, ""⟩, [], [], [("5m", "slugB")], [], [], [],
          [("btc_updown_5m", 0)], 0, 0, []⟩).executor =
      (PaperExecutor.flatten_symbol
        ⟨[("btc_updown_5m", 10)], [("btc_updown_5m", 1 / 2)], [], 0⟩
        ("btc_updown_" ++ "5m")
        ((some (1 / 10 : ℚ)).getD (1 / 10))).2 :=
  (exit_check_flattens ⟨800, 25, 20, 45, 90, 3, 18, 10, ⟨1000, 10000⟩⟩
    (fun _ _ _ => 0)
    ⟨"5m", ⟨"slugB", "cond", "q", "yt", "nt", 1 / 10, 9 / 10, some 50000⟩,
      some (1 / 10), 50000, 1000, 100, "id1"⟩
    ⟨⟨[("btc_updown_5m", 10)], [("btc_updown_5m", 1 / 2)], [], 0⟩,
      ⟨0, []⟩, ⟨false, ""⟩, [], [], [("5m", "slugB")], [], [], [],
      [("btc_updown_5m", 0)], 0, 0, []⟩ 50000
    (by norm_num [dget?])
    rfl
    (by norm_num)
    (by norm_num [PaperExecutor.has_open_position, dgetD, dget?,
      show ("btc_updown_" ++ "5m" : String) = "btc_updown_5m" from rfl])
    (by norm_num [dgetD, dget?,
      show ("btc_updown_" ++ "5m" : String) = "btc_updown_5m" from rfl])
    (Or.inl (by norm_num [PaperExecutor.symbol_unrealized, dgetD, dget?,
      show ("btc_updown_" ++ "5m" : String) = "btc_updown_5m" from rfl]))).1

/-! ## C6 -/

theorem signalStep_audit (cfg : OrchConfig) (inp : TickInput) (symbol : String)
    (yes_price model_strike model_p : ℚ) (st : OrchState) :
    ∃ l, (signalStep cfg inp symbol yes_price model_strike model_p st).audit =
      l ++ st.audit := by
  unfold signalStep
  dsimp only
  cases h : maybe_signal_side (edge_bps model_p yes_price) cfg.edge_threshold_bps with
  | none => exact ⟨[], rfl⟩
  | some side =>
    dsimp only
    split_ifs <;> first | exact ⟨[], rfl⟩ | exact ⟨[_], rfl⟩

theorem expirySettle_audit (series slug symbol : String) (yes_price : ℚ)
    (st : OrchState) :
    ∃ l, (expirySettle series slug symbol yes_price st).audit = l ++ st.audit := by
  unfold expirySettle
  dsimp only
  cases h : (PaperExecutor.flatten_symbol st.executor symbol yes_price).1 with
  | none => exact ⟨[], rfl⟩
  | some ff => exact ⟨[_], rfl⟩

theorem exitFlatten_audit (series slug symbol : String)
    (yes_price unrealized held_s : ℚ) (reason : String) (st : OrchState) :
    ∃ l, (exitFlatten series slug symbol yes_price unrealized held_s reason
      st).audit = l ++ st.audit := by
  unfold exitFlatten
  dsimp only
  cases h : (PaperExecutor.flatten_symbol st.executor symbol yes_price).1 with
  | none => exact ⟨[], rfl⟩
  | some ff => exact ⟨[_], rfl⟩

theorem tickTrade_audit (cfg : OrchConfig) (mp : ℚ → ℚ → ℚ → ℚ)
    (inp : TickInput) (symbol : String) (yes_price model_strike : ℚ)
    (st : OrchState) :
    ∃ l, (tickTrade cfg mp inp symbol yes_price model_strike st).audit =
      l ++ st.audit := by
  unfold tickTrade
  dsimp only
  split_ifs <;>
    first
      | exact ⟨[], rfl⟩
      | apply expirySettle_audit
      | apply exitFlatten_audit
      | apply signalStep_audit

theorem afterRoll_audit (cfg : OrchConfig) (mp : ℚ → ℚ → ℚ → ℚ)
    (inp : TickInput) (symbol : String) (yes_price : ℚ) (st : OrchState) :
    ∃ l, (afterRoll cfg mp inp symbol yes_price st).audit = l ++ st.audit := by
  unfold afterRoll strikeStep
  cases h : inp.market.strike_price with
  | some k =>
    dsimp only
    apply tickTrade_audit
  | none =>
    dsimp only
    by_cases hu : is_updown_market inp.market = true
    · rw [if_pos hu]
      cases h2 : dget? st.market_open_spot inp.market.slug with
      | some os =>
        dsimp only
        apply tickTrade_audit
      | none =>
        dsimp only
        exact tickTrade_audit cfg mp inp symbol yes_price inp.spot _
    · rw [if_neg hu]
      exact ⟨[], rfl⟩

theorem flatten_some_fill_price (s : PaperState) (symbol : String) (fp : ℚ)
    (h : dgetD s.position_qty symbol 0 ≠ 0) :
    ∃ ff, (PaperExecutor.flatten_symbol s symbol fp).1 = some ff ∧
      ff.fill_price = max fp priceFloor := by
  unfold PaperExecutor.flatten_symbol
  dsimp only
  rw [if_neg h]
  exact ⟨_, rfl, rfl⟩

/-- C6: on a tick whose resolved slug differs from the previously seen
slug while a position is open, roll detection flattens the symbol at the
last known quote recorded for the series (floored like every fill),
prepends an audit record tagged `flatten_roll` for the old slug, clears
the old slug's open-spot memo and the position-open timestamp — and
everything else the tick does only adds newer audit records on top of the
roll record. -/
theorem roll_flattens_first (cfg : OrchConfig) (mp : ℚ → ℚ → ℚ → ℚ)
    (inp : TickInput) (st : OrchState) (prev : String)
    (hprev : dget? st.last_seen_slug inp.series = some prev)
    (hdiff : prev ≠ inp.market.slug)
    (hopen : dgetD st.executor.position_qty ("btc_updown_" ++ inp.series) 0 ≠ 0) :
    ∃ ff, (PaperExecutor.flatten_symbol st.executor ("btc_updown_" ++ inp.series)
        (dgetD st.last_series_yes_price inp.series
          (inp.yes_px.getD inp.market.yes_price))).1 = some ff ∧
      ff.fill_price = max (dgetD st.last_series_yes_price inp.series
        (inp.yes_px.getD inp.market.yes_price)) priceFloor ∧
      rollStep inp.series ("btc_updown_" ++ inp.series) inp.market.slug
          (inp.yes_px.getD inp.market.yes_price) st =
        { st with
          executor := (PaperExecutor.flatten_symbol st.executor
            ("btc_updown_" ++ inp.series)
            (dgetD st.last_series_yes_price inp.series
              (inp.yes_px.getD inp.market.yes_price))).2
          position_open_ts := dpop st.position_open_ts ("btc_updown_" ++ inp.series)
          market_open_spot := dpop st.market_open_spot prev
          audit := flattenAudit inp.series prev
            (dgetD st.last_series_yes_price inp.series
              (inp.yes_px.getD inp.market.yes_price)) ff "flatten_roll" ::
            st.audit } ∧
      dgetD (PaperExecutor.flatten_symbol st.executor ("btc_updown_" ++ inp.series)
        (dgetD st.last_series_yes_price inp.series
          (inp.yes_px.getD inp.market.yes_price))).2.position_qty
        ("btc_updown_" ++ inp.series) 0 = 0 ∧
      ∃ later, (processSeries cfg mp inp st).audit =
        later ++ (flattenAudit inp.series prev
          (dgetD st.last_series_yes_price inp.series
            (inp.yes_px.getD inp.market.yes_price)) ff "flatten_roll" ::
          st.audit) := by
  obtain ⟨ff, hff, hffp⟩ := flatten_some_fill_price st.executor
    ("btc_updown_" ++ inp.series)
    (dgetD st.last_series_yes_price inp.series
      (inp.yes_px.getD inp.market.yes_price)) hopen
  have hrollEq : rollStep inp.series ("btc_updown_" ++ inp.series) inp.market.slug
      (inp.yes_px.getD inp.market.yes_price) st =
      { st with
        executor := (PaperExecutor.flatten_symbol st.executor
          ("btc_updown_" ++ inp.series)
          (dgetD st.last_series_yes_price inp.series
            (inp.yes_px.getD inp.market.yes_price))).2
        position_open_ts := dpop st.position_open_ts ("btc_updown_" ++ inp.series)
        market_open_spot := dpop st.market_open_spot prev
        audit := flattenAudit inp.series prev
          (dgetD st.last_series_yes_price inp.series
            (inp.yes_px.getD inp.market.yes_price)) ff "flatten_roll" ::
          st.audit } := by
    unfold rollStep
    rw [hprev]
    dsimp only
    rw [if_neg hdiff, hff]
  have hflat0 : dgetD (PaperExecutor.flatten_symbol st.executor
      ("btc_updown_" ++ inp.series)
      (dgetD st.last_series_yes_price inp.series
        (inp.yes_px.getD inp.market.yes_price))).2.position_qty
      ("btc_updown_" ++ inp.series) 0 = 0 := by
    unfold PaperExecutor.flatten_symbol
    dsimp only
    rw [if_neg hopen]
    simp [dgetD_dinsert]
  refine ⟨ff, hff, hffp, hrollEq, hflat0, ?_⟩
  obtain ⟨l, hl⟩ := afterRoll_audit cfg mp inp ("btc_updown_" ++ inp.series)
    (inp.yes_px.getD inp.market.yes_price)
    (recordSlug inp.series inp.market.slug (inp.yes_px.getD inp.market.yes_price)
      (rollStep inp.series ("btc_updown_" ++ inp.series) inp.market.slug
        (inp.yes_px.getD inp.market.yes_price) st))
  refine ⟨l, ?_⟩
  unfold processSeries
  dsimp only
  rw [hl, hrollEq]
  simp [recordSlug]

/-- Witness for C6: a roll from slugA to slugB with a long 10-lot open
leaves the rolled symbol flat. -/
theorem roll_flattens_first_witness :
    dgetD (PaperExecutor.flatten_symbol
        (PaperState.mk [("btc_updown_5m", 10)] [("btc_updown_5m", 1 / 2)] [] 0)
        ("btc_updown_" ++ "5m")
        (dgetD [("5m", (2 : ℚ) / 10)] "5m"
          ((some ((1 : ℚ) / 10)).getD (1 / 10)))).2.position_qty
      ("btc_updown_" ++ "5m") 0 = 0 := by
  obtain ⟨ff, hff, hffp, hroll, hflat, hlater⟩ :=
    roll_flattens_first ⟨800, 25, 20, 45, 90, 3, 18, 10, ⟨1000, 10000⟩⟩
      (fun _ _ _ => 0)
      ⟨"5m", ⟨"slugB", "cond", "q", "yt", "nt", 1 / 10, 9 / 10, some 50000⟩,
        some (1 / 10), 50000, 1000, 100, "id1"⟩
      ⟨⟨[("btc_updown_5m", 10)], [("btc_updown_5m", 1 / 2)], [], 0⟩,
        ⟨0, []⟩, ⟨false, ""⟩, [], [("slugA", 7)], [("5m", "slugA")],
        [("5m", 2 / 10)], [], [], [("btc_updown_5m", 0)], 0, 0, []⟩
      "slugA"
      (by norm_num [dget?])
      (by decide)
      (by norm_num [dgetD, dget?,
        show ("btc_updown_" ++ "5m" : String) = "btc_updown_5m" from rfl])
  exact hflat

end CoinbotAlpha
